import Mathlib

/-!
Shallow embedding of the record-store and workflow layer of XrayCryst_FHE
(`src/frontend/web/src/App.tsx`): the JSON codec used by `loadAnalysisData`
and `uploadXrayImage`, the flat ledger exposed by the contract's
`getData`/`setData`, the index update inlined in `uploadXrayImage`
(lines 169-185), and the workflow step `processWithFHE`.
-/

/-- A JSON value as produced by `JSON.parse` (duplicate object keys are kept;
lookup is last-wins, matching the parse-time collapse). Numbers are modelled
as integers: every number the code writes (`Math.floor(Date.now()/1000)`)
is an integer. -/
inductive Json where
  | jnull
  | jbool (b : Bool)
  | jnum (n : Int)
  | jstr (s : String)
  | jarr (items : List Json)
  | jobj (fields : List (String × Json))

/-- A byte string stored in the ledger, abstracted by how `JSON.parse`
treats it: zero-length (absent key), nonempty but unparseable, or
parsing to a JSON value. -/
inductive Bytes where
  | empty
  | malformed
  | wf (j : Json)

def Ledger := String → Bytes

def getData (st : Ledger) (k : String) : Bytes := st k

def setData (st : Ledger) (k : String) (v : Bytes) : Ledger :=
  fun key => if key = k then v else st key

def emptyLedger : Ledger := fun _ => Bytes.empty

/-- Last-wins association lookup: JavaScript property access on an object
built from a JSON text keeps the last occurrence of a repeated key. -/
def lookupLast (fields : List (String × Json)) (k : String) : Option Json :=
  match fields with
  | [] => none
  | (k', v) :: rest =>
      match lookupLast rest k with
      | some v' => some v'
      | none => if k' = k then some v else none

/-- JavaScript property access `j.k` on a parsed JSON value: objects look the
key up, primitives and arrays yield `undefined` for the field names this code
uses (`null` is handled separately by the callers, since `null.k` throws). -/
def Json.get (j : Json) (k : String) : Option Json :=
  match j with
  | .jobj fields => lookupLast fields k
  | _ => none

/-- JavaScript truthiness of a JSON value, as used by `v || "processing"`. -/
def Json.truthy : Json → Bool
  | .jnull => false
  | .jbool b => b
  | .jnum n => n != 0
  | .jstr s => s != ""
  | .jarr _ => true
  | .jobj _ => true

mutual
/-- JavaScript string coercion of a JSON value, as performed by the template
literal `analysis_${key}`. -/
def Json.toStr : Json → String
  | .jnull => "null"
  | .jbool b => cond b "true" "false"
  | .jnum n => toString n
  | .jstr s => s
  | .jarr items => Json.toStrList items
  | .jobj _ => "[object Object]"

/-- `Array.prototype.toString`: elements joined with commas, with `null`
elements rendered as the empty string. -/
def Json.toStrList : List Json → String
  | [] => ""
  | [e] => Json.toStrElem e
  | e :: rest => Json.toStrElem e ++ "," ++ Json.toStrList rest

def Json.toStrElem : Json → String
  | .jnull => ""
  | j => Json.toStr j
end

/-- The `CrystallographyData` interface of `App.tsx` (the declared shape of a
record; `status` is one of `"processing" | "completed" | "failed"`). -/
structure CrystallographyData where
  id : String
  encryptedImage : String
  densityMap : String
  molecularStructure : String
  timestamp : Int
  owner : String
  status : String

def validStatus (s : String) : Prop :=
  s = "processing" ∨ s = "completed" ∨ s = "failed"

/-- The entry actually pushed by `loadAnalysisData` (lines 102-110): each
field is whatever JSON value sits under the corresponding key, `undefined`
(`none`) when the key is absent, and `status` is defaulted by
`analysisData.status || "processing"`. -/
structure AnalysisEntry where
  id : String
  encryptedImage : Option Json
  densityMap : Option Json
  molecularStructure : Option Json
  timestamp : Option Json
  owner : Option Json
  status : Json

/-- `analysisData.status || "processing"` (line 109): the stored value when
truthy, otherwise the string `"processing"`. -/
def statusOrDefault (v : Option Json) : Json :=
  match v with
  | some s => if s.truthy then s else Json.jstr "processing"
  | none => Json.jstr "processing"

/-- The record built at lines 102-110 from the parse result `j` of the bytes
stored under `analysis_${key}`. -/
def decodeEntry (key : String) (j : Json) : AnalysisEntry :=
  { id := key
    encryptedImage := j.get "image"
    densityMap := j.get "densityMap"
    molecularStructure := j.get "structure"
    timestamp := j.get "timestamp"
    owner := j.get "owner"
    status := statusOrDefault (j.get "status") }

/-- Per-key decoding inside `list()` (lines 98-114): zero-length bytes are
skipped, a `JSON.parse` failure is caught and skipped, a parsed `null` throws
on the first property access and is likewise caught and skipped; any other
parse result yields an entry. -/
def decodeBytes (key : String) : Bytes → Option AnalysisEntry
  | .empty => none
  | .malformed => none
  | .wf .jnull => none
  | .wf j => some (decodeEntry key j)

/-- The JSON object serialized at upload time (lines 154-161) and, field for
field, the encoder of a record; the `id` is not part of the value, it lives
in the ledger key `analysis_${id}`. -/
def encodeRecord (r : CrystallographyData) : Json :=
  .jobj [("image", .jstr r.encryptedImage),
         ("densityMap", .jstr r.densityMap),
         ("structure", .jstr r.molecularStructure),
         ("timestamp", .jnum r.timestamp),
         ("owner", .jstr r.owner),
         ("status", .jstr r.status)]

/-- The entry that a record should decode back to: every field present,
holding exactly the record's data. -/
def recordToEntry (r : CrystallographyData) : AnalysisEntry :=
  { id := r.id
    encryptedImage := some (.jstr r.encryptedImage)
    densityMap := some (.jstr r.densityMap)
    molecularStructure := some (.jstr r.molecularStructure)
    timestamp := some (.jnum r.timestamp)
    owner := some (.jstr r.owner)
    status := .jstr r.status }

/-- Key-list extraction in `loadAnalysisData` (lines 83-92 plus the `for-of`
at line 96): absent index bytes or a caught parse error leave `keys = []`;
a parsed array is iterated element-wise, each element coerced to a string as
the template literal `analysis_${key}` (and the entry's `id` field) does; a
parsed string is iterated character-wise (strings are iterable in
JavaScript); any other value is not iterable, the `for-of` throws, and the
whole load aborts (`none`). -/
def iterKeys : Bytes → Option (List String)
  | .empty => some []
  | .malformed => some []
  | .wf (.jarr items) => some (items.map Json.toStr)
  | .wf (.jstr s) => some (s.data.map (fun c => String.mk [c]))
  | .wf _ => none

/-- Sort key of the comparator `(a, b) => b.timestamp - a.timestamp`
(line 120). The theorems about listing order restrict to entries whose
`timestamp` is a JSON number; on anything else the JavaScript comparator
returns `NaN`, which this integer model does not capture. -/
def tsOf (e : AnalysisEntry) : Int :=
  match e.timestamp with
  | some (.jnum n) => n
  | _ => 0

def tsLe (a b : AnalysisEntry) : Prop := tsOf b ≤ tsOf a

instance : DecidableRel tsLe := fun a b => inferInstanceAs (Decidable (tsOf b ≤ tsOf a))

instance : IsTotal AnalysisEntry tsLe := ⟨fun a b => le_total (tsOf b) (tsOf a)⟩

instance : IsTrans AnalysisEntry tsLe :=
  ⟨fun _ _ _ h1 h2 => le_trans h2 h1⟩

/-- `list.sort((a, b) => b.timestamp - a.timestamp)`: JavaScript's sort is
stable (ES2019), and the stable sort by a total preorder is unique, so
insertion sort computes it. -/
def sortEntries (l : List AnalysisEntry) : List AnalysisEntry :=
  l.insertionSort tsLe

/-- The decode loop of `loadAnalysisData` (lines 94-118): each key's bytes
are fetched from `analysis_${key}` and decoded, and failures are skipped. -/
def rawList (st : Ledger) (keys : List String) : List AnalysisEntry :=
  keys.filterMap (fun k => decodeBytes k (getData st ("analysis_" ++ k)))

def loadList (st : Ledger) (keys : List String) : List AnalysisEntry :=
  sortEntries (rawList st keys)

/-- `loadAnalysisData` (lines 70-128): `none` when the contract is
unavailable or the key list is not iterable (the outer catch leaves the
displayed list unset); otherwise the decoded entries, newest first. -/
def loadAnalysisData (available : Bool) (st : Ledger) : Option (List AnalysisEntry) :=
  if available then (iterKeys (getData st "analysis_keys")).map (loadList st) else none

/-- `${Date.now()}-${Math.random().toString(36).substring(2, 9)}`
(line 152): the millisecond clock, a dash, and a random base-36 suffix. -/
def mkAnalysisId (nowMs : Nat) (rand : String) : String :=
  toString nowMs ++ "-" ++ rand

/-- Index parse inside `uploadXrayImage` (lines 169-178): absent index bytes
or a caught parse error leave `keys = []`; a parsed non-array has no `push`
method, so line 180 throws and the index write never happens. -/
def pushableKeys : Bytes → Option (List Json)
  | .empty => some []
  | .malformed => some []
  | .wf (.jarr items) => some items
  | .wf _ => none

/-- The index bytes written back by lines 180-185: the fetched list with the
new id pushed at the end, unconditionally. -/
def registerKeyBytes (st : Ledger) (analysisId : String) : Option Bytes :=
  (pushableKeys (getData st "analysis_keys")).map
    (fun ks => Bytes.wf (.jarr (ks ++ [.jstr analysisId])))

/-- The Index Manager `registerKey` step of `uploadXrayImage`
(lines 169-185): fetch the key list, push the id, write the list back.
When the fetched index is not pushable the raised error aborts the write. -/
def registerKey (st : Ledger) (analysisId : String) : Ledger :=
  match registerKeyBytes st analysisId with
  | some b => setData st "analysis_keys" b
  | none => st

/-- A `contract.setData` call that was actually executed. -/
structure WriteEv where
  key : String
  value : Bytes

/-- The record object built at lines 154-161: `status: "processing"`, empty
derived artifacts, `timestamp: Math.floor(Date.now() / 1000)`. -/
def newRecord (account : String) (encryptedImage : String) (nowMs : Nat)
    (rand : String) : CrystallographyData :=
  { id := mkAnalysisId nowMs rand
    encryptedImage := encryptedImage
    densityMap := ""
    molecularStructure := ""
    timestamp := Int.ofNat (nowMs / 1000)
    owner := account
    status := "processing" }

/-- `uploadXrayImage` from line 152 on (the FHE-encryption of the form data at
line 145 is a browser `btoa` call, abstracted as the opaque `encryptedImage`
argument). `ok1`/`ok2` are the outcomes of the two `setData` transactions: a
rejected transaction throws into the catch block and performs no write.
Returns the final ledger and the writes performed, in order. -/
def uploadXrayImage (st : Ledger) (account : String) (encryptedImage : String)
    (nowMs : Nat) (rand : String) (ok1 ok2 : Bool) : Ledger × List WriteEv :=
  let analysisId := mkAnalysisId nowMs rand
  let recBytes := Bytes.wf (encodeRecord (newRecord account encryptedImage nowMs rand))
  let recKey := "analysis_" ++ analysisId
  if ok1 then
    let st1 := setData st recKey recBytes
    match registerKeyBytes st1 analysisId with
    | none => (st1, [⟨recKey, recBytes⟩])
    | some idxBytes =>
        if ok2 then
          (setData st1 "analysis_keys" idxBytes, [⟨recKey, recBytes⟩, ⟨"analysis_keys", idxBytes⟩])
        else (st1, [⟨recKey, recBytes⟩])
  else (st, [])

/-- JavaScript object spread with an override, `{...obj, k: v}`: the property
is replaced in place when present, appended when absent. -/
def setKey (fields : List (String × Json)) (k : String) (v : Json) : List (String × Json) :=
  if fields.any (fun p => p.1 = k) then
    fields.map (fun p => if p.1 = k then (k, v) else p)
  else fields ++ [(k, v)]

/-- The update object of lines 251-256,
`{...analysisData, densityMap: ..., structure: ..., status: "completed"}`.
Spreading a parsed non-object contributes no string-keyed own properties
relevant here (a spread string would contribute only numeric index keys). -/
def completedUpdate (j : Json) : Json :=
  let base : List (String × Json) :=
    match j with
    | .jobj fields => fields
    | _ => []
  .jobj (setKey (setKey (setKey base
    "densityMap" (.jstr "FHE-ENCRYPTED-DENSITY-MAP"))
    "structure" (.jstr "FHE-ENCRYPTED-STRUCTURE"))
    "status" (.jstr "completed"))

/-- Outcome of one `processWithFHE` call: success, or the caught error shown
as "Analysis failed: ..." (lines 274-284). -/
inductive PResult where
  | success
  | failure (msg : String)
deriving DecidableEq

/-- `processWithFHE` (lines 222-285), from the contract interaction at
line 238 on. `caller` is the connected account invoking it — the body never
reads it. `writeOk` is the outcome of the `setData` transaction; a rejected
transaction throws into the catch block and leaves the ledger unchanged. -/
def processWithFHE (caller : String) (st : Ledger) (analysisId : String)
    (writeOk : Bool) : Ledger × PResult :=
  let key := "analysis_" ++ analysisId
  match getData st key with
  | .empty => (st, .failure "Analysis not found")
  | .malformed => (st, .failure "JSON parse error")
  | .wf j =>
      if writeOk then
        (setData st key (.wf (completedUpdate j)), .success)
      else (st, .failure "transaction rejected")

/-- `String.prototype.toLowerCase`, character by character (exact for the
ASCII hexadecimal addresses this app compares). -/
def jsToLower (s : String) : String :=
  ⟨s.data.map Char.toLower⟩

/-- `isOwner` (lines 287-289): case-insensitive address comparison. -/
def isOwner (account : String) (address : String) : Bool :=
  jsToLower account == jsToLower address

/-- The rendering guard of the "Process with FHE" button (line 440):
`isOwner(data.owner) && data.status === "processing"`. An `undefined` owner
would make `isOwner` throw in the renderer; the guard is modelled as false
there. -/
def showProcessButton (account : String) (e : AnalysisEntry) : Bool :=
  (match e.owner with
   | some (.jstr o) => isOwner account o
   | _ => false) &&
  (match e.status with
   | .jstr s => s = "processing"
   | _ => false)

/-- The pairwise ordering the specification claims for `list()`: strictly
newer first, ties broken by id ascending (lexicographic on the id's
characters, which is what `<` on `String` means). -/
def claimRel (a b : AnalysisEntry) : Prop :=
  tsOf a > tsOf b ∨ (tsOf a = tsOf b ∧ a.id.data < b.id.data)

instance : DecidableRel claimRel := fun a b =>
  inferInstanceAs (Decidable (tsOf a > tsOf b ∨ (tsOf a = tsOf b ∧ a.id.data < b.id.data)))

/-- The ordering the specification claims for `list()`: `createdAt`
descending, ties broken by id ascending. -/
def claimedOrder (l : List AnalysisEntry) : Prop :=
  l.Pairwise claimRel

instance (l : List AnalysisEntry) : Decidable (claimedOrder l) :=
  inferInstanceAs (Decidable (l.Pairwise claimRel))

/-! ### Association-list lemmas for the JSON object model -/

theorem lookupLast_eq_none (fields : List (String × Json)) (k : String)
    (h : fields.all (fun p => p.1 ≠ k)) : lookupLast fields k = none := by
  induction fields with
  | nil => rfl
  | cons p rest ih =>
      simp only [List.all_cons, Bool.and_eq_true, decide_eq_true_eq] at h
      simp only [lookupLast, ih h.2, if_neg h.1]

theorem lookupLast_append_single (fields : List (String × Json)) (k k' : String) (v : Json) :
    lookupLast (fields ++ [(k, v)]) k' =
      if k = k' then some v else lookupLast fields k' := by
  induction fields with
  | nil =>
      by_cases h : k = k' <;> simp [lookupLast, h]
  | cons p rest ih =>
      have hstep : lookupLast ((p :: rest) ++ [(k, v)]) k' =
          match lookupLast (rest ++ [(k, v)]) k' with
          | some v' => some v'
          | none => if p.1 = k' then some p.2 else none := rfl
      rw [hstep, ih]
      by_cases h : k = k'
      · simp [h]
      · simp only [if_neg h]
        rfl

theorem any_map_setKey (fields : List (String × Json)) (k k' : String) (v : Json) :
    (fields.map (fun p => if p.1 = k then (k, v) else p)).any (fun p => p.1 = k') =
      fields.any (fun p => p.1 = k') := by
  induction fields with
  | nil => rfl
  | cons p rest ih =>
      simp only [List.map_cons, List.any_cons, ih]
      by_cases h : p.1 = k <;> simp [h]

theorem lookupLast_of_not_any (fields : List (String × Json)) (k : String)
    (h : fields.any (fun p => p.1 = k) = false) : lookupLast fields k = none := by
  apply lookupLast_eq_none
  simp only [List.any_eq_false, decide_eq_true_eq] at h
  simp only [List.all_eq_true, decide_eq_true_eq]
  exact h

theorem lookupLast_map_set_ne (fields : List (String × Json)) (k k' : String) (v : Json)
    (hne : k ≠ k') :
    lookupLast (fields.map (fun p => if p.1 = k then (k, v) else p)) k' =
      lookupLast fields k' := by
  induction fields with
  | nil => rfl
  | cons p rest ih =>
      by_cases h : p.1 = k
      · have hmap : (p :: rest).map (fun q => if q.1 = k then (k, v) else q) =
            (k, v) :: rest.map (fun q => if q.1 = k then (k, v) else q) := by
          simp [h]
        rw [hmap]
        have hstepL : lookupLast ((k, v) :: rest.map (fun q => if q.1 = k then (k, v) else q)) k' =
            match lookupLast (rest.map (fun q => if q.1 = k then (k, v) else q)) k' with
            | some v' => some v'
            | none => if k = k' then some v else none := rfl
        have hstepR : lookupLast (p :: rest) k' =
            match lookupLast rest k' with
            | some v' => some v'
            | none => if p.1 = k' then some p.2 else none := rfl
        rw [hstepL, hstepR, ih]
        cases lookupLast rest k' with
        | some v' => rfl
        | none =>
            rw [if_neg hne, if_neg (fun hh : p.1 = k' => hne (h.symm.trans hh))]
      · have hmap : (p :: rest).map (fun q => if q.1 = k then (k, v) else q) =
            p :: rest.map (fun q => if q.1 = k then (k, v) else q) := by
          simp [h]
        rw [hmap]
        have hstepL : lookupLast (p :: rest.map (fun q => if q.1 = k then (k, v) else q)) k' =
            match lookupLast (rest.map (fun q => if q.1 = k then (k, v) else q)) k' with
            | some v' => some v'
            | none => if p.1 = k' then some p.2 else none := rfl
        have hstepR : lookupLast (p :: rest) k' =
            match lookupLast rest k' with
            | some v' => some v'
            | none => if p.1 = k' then some p.2 else none := rfl
        rw [hstepL, hstepR, ih]

theorem lookupLast_map_set_self (fields : List (String × Json)) (k : String) (v : Json)
    (h : fields.any (fun p => p.1 = k) = true) :
    lookupLast (fields.map (fun p => if p.1 = k then (k, v) else p)) k = some v := by
  induction fields with
  | nil => simp at h
  | cons p rest ih =>
      cases h' : rest.any (fun p => p.1 = k) with
      | true =>
          by_cases hp : p.1 = k
          · have hmap : (p :: rest).map (fun q => if q.1 = k then (k, v) else q) =
                (k, v) :: rest.map (fun q => if q.1 = k then (k, v) else q) := by simp [hp]
            rw [hmap]
            have hstep : lookupLast ((k, v) :: rest.map (fun q => if q.1 = k then (k, v) else q)) k =
                match lookupLast (rest.map (fun q => if q.1 = k then (k, v) else q)) k with
                | some v' => some v'
                | none => if k = k then some v else none := rfl
            rw [hstep, ih h']
          · have hmap : (p :: rest).map (fun q => if q.1 = k then (k, v) else q) =
                p :: rest.map (fun q => if q.1 = k then (k, v) else q) := by simp [hp]
            rw [hmap]
            have hstep : lookupLast (p :: rest.map (fun q => if q.1 = k then (k, v) else q)) k =
                match lookupLast (rest.map (fun q => if q.1 = k then (k, v) else q)) k with
                | some v' => some v'
                | none => if p.1 = k then some p.2 else none := rfl
            rw [hstep, ih h']
      | false =>
          have hp : p.1 = k := by
            simp only [List.any_cons, h', Bool.or_false, decide_eq_true_eq] at h
            exact h
          have hmap : (p :: rest).map (fun q => if q.1 = k then (k, v) else q) =
              (k, v) :: rest.map (fun q => if q.1 = k then (k, v) else q) := by simp [hp]
          rw [hmap]
          have hnone : lookupLast (rest.map (fun q => if q.1 = k then (k, v) else q)) k = none := by
            apply lookupLast_of_not_any
            rw [any_map_setKey, h']
          have hstep : lookupLast ((k, v) :: rest.map (fun q => if q.1 = k then (k, v) else q)) k =
              match lookupLast (rest.map (fun q => if q.1 = k then (k, v) else q)) k with
              | some v' => some v'
              | none => if k = k then some v else none := rfl
          rw [hstep, hnone, if_pos rfl]

theorem lookupLast_setKey (fields : List (String × Json)) (k k' : String) (v : Json) :
    lookupLast (setKey fields k v) k' =
      if k = k' then some v else lookupLast fields k' := by
  unfold setKey
  cases hany : fields.any (fun p => p.1 = k) with
  | false => simp only [Bool.false_eq_true, if_false, lookupLast_append_single]
  | true =>
      simp only [if_true]
      by_cases h : k = k'
      · subst h
        rw [lookupLast_map_set_self fields k v hany, if_pos rfl]
      · rw [lookupLast_map_set_ne fields k k' v h, if_neg h]

/-- Field view of the completed-update object: `status`, `structure` and
`densityMap` are overwritten, every other property keeps the value it had in
the parsed record (`none`, for a parsed primitive). -/
theorem completedUpdate_get (j : Json) (k : String) :
    (completedUpdate j).get k =
      if k = "status" then some (.jstr "completed")
      else if k = "structure" then some (.jstr "FHE-ENCRYPTED-STRUCTURE")
      else if k = "densityMap" then some (.jstr "FHE-ENCRYPTED-DENSITY-MAP")
      else j.get k := by
  have base : ∀ fields : List (String × Json),
      lookupLast (setKey (setKey (setKey fields
          "densityMap" (.jstr "FHE-ENCRYPTED-DENSITY-MAP"))
          "structure" (.jstr "FHE-ENCRYPTED-STRUCTURE"))
          "status" (.jstr "completed")) k =
        if k = "status" then some (.jstr "completed")
        else if k = "structure" then some (.jstr "FHE-ENCRYPTED-STRUCTURE")
        else if k = "densityMap" then some (.jstr "FHE-ENCRYPTED-DENSITY-MAP")
        else lookupLast fields k := by
    intro fields
    rw [lookupLast_setKey, lookupLast_setKey, lookupLast_setKey]
    by_cases h1 : k = "status"
    · subst h1; rfl
    · rw [if_neg (fun h => h1 h.symm), if_neg h1]
      by_cases h2 : k = "structure"
      · subst h2; rfl
      · rw [if_neg (fun h => h2 h.symm), if_neg h2]
        by_cases h3 : k = "densityMap"
        · subst h3; rfl
        · rw [if_neg (fun h => h3 h.symm), if_neg h3]
  cases j with
  | jnull => exact base []
  | jbool b => exact base []
  | jnum n => exact base []
  | jstr s => exact base []
  | jarr items => exact base []
  | jobj fields => exact base fields

/-! ### Stable-sort lemmas for the listing order -/

def tsEq (t : Int) (e : AnalysisEntry) : Bool := tsOf e == t

theorem sorted_sortEntries (l : List AnalysisEntry) : List.Sorted tsLe (sortEntries l) :=
  List.sorted_insertionSort tsLe l

theorem perm_sortEntries (l : List AnalysisEntry) : (sortEntries l).Perm l :=
  List.perm_insertionSort tsLe l

theorem filter_orderedInsert (t : Int) (x : AnalysisEntry) (l : List AnalysisEntry) :
    (List.orderedInsert tsLe x l).filter (tsEq t) =
      if tsEq t x then x :: l.filter (tsEq t) else l.filter (tsEq t) := by
  induction l with
  | nil =>
      simp only [List.orderedInsert, List.filter]
      cases tsEq t x <;> rfl
  | cons b l ih =>
      simp only [List.orderedInsert]
      by_cases hle : tsLe x b
      · rw [if_pos hle]
        simp only [List.filter]
        cases tsEq t x <;> rfl
      · rw [if_neg hle]
        simp only [List.filter, ih]
        cases hx : tsEq t x with
        | true =>
            cases hb : tsEq t b with
            | true =>
                exfalso
                apply hle
                have hxv : tsOf x = t := by simpa [tsEq] using hx
                have hbv : tsOf b = t := by simpa [tsEq] using hb
                show tsOf b ≤ tsOf x
                rw [hxv, hbv]
            | false => simp
        | false =>
            cases hb : tsEq t b with
            | true => simp
            | false => simp

theorem filter_sortEntries (t : Int) (l : List AnalysisEntry) :
    (sortEntries l).filter (tsEq t) = l.filter (tsEq t) := by
  induction l with
  | nil => rfl
  | cons x l ih =>
      show (List.orderedInsert tsLe x (sortEntries l)).filter (tsEq t) = _
      rw [filter_orderedInsert, ih]
      simp only [List.filter]
      cases tsEq t x <;> rfl

/-! ### Skip-and-continue lemmas for `list()` -/

theorem rawList_filter_bad (st : Ledger) (keys : List String) (bad : String)
    (h : decodeBytes bad (getData st ("analysis_" ++ bad)) = none) :
    rawList st keys = rawList st (keys.filter (fun k => k ≠ bad)) := by
  induction keys with
  | nil => rfl
  | cons k rest ih =>
      by_cases hk : k = bad
      · simpa [rawList, List.filterMap_cons, List.filter_cons, hk, h] using ih
      · cases hd : decodeBytes k (getData st ("analysis_" ++ k)) with
        | none => simpa [rawList, List.filterMap_cons, List.filter_cons, hk, hd] using ih
        | some e => simpa [rawList, List.filterMap_cons, List.filter_cons, hk, hd] using ih

theorem mem_rawList_of_decode (st : Ledger) (keys : List String) (k : String) (e : AnalysisEntry)
    (hk : k ∈ keys) (hd : decodeBytes k (getData st ("analysis_" ++ k)) = some e) :
    e ∈ rawList st keys := by
  unfold rawList
  exact List.mem_filterMap.mpr ⟨k, hk, hd⟩

theorem mem_loadList_of_decode (st : Ledger) (keys : List String) (k : String) (e : AnalysisEntry)
    (hk : k ∈ keys) (hd : decodeBytes k (getData st ("analysis_" ++ k)) = some e) :
    e ∈ loadList st keys := by
  unfold loadList
  exact ((perm_sortEntries (rawList st keys)).mem_iff).mpr
    (mem_rawList_of_decode st keys k e hk hd)

/-! ### Codec round-trip -/

theorem decode_encode (r : CrystallographyData) (h : validStatus r.status) :
    decodeBytes r.id (.wf (encodeRecord r)) = some (recordToEntry r) := by
  cases r with
  | mk id img dm ms ts ow s =>
      rcases h with h | h | h <;> (subst h; rfl)

/-! ### Decimal-representation facts for the generated analysis ids -/

theorem digitChar_ne_dash (m : Nat) : Nat.digitChar m ≠ '-' := by
  by_cases h : m < 16
  · interval_cases m <;> decide
  · have hstar : Nat.digitChar m = '*' := by
      unfold Nat.digitChar
      rw [if_neg (show ¬ m = 0 by omega), if_neg (show ¬ m = 1 by omega),
        if_neg (show ¬ m = 2 by omega), if_neg (show ¬ m = 3 by omega),
        if_neg (show ¬ m = 4 by omega), if_neg (show ¬ m = 5 by omega),
        if_neg (show ¬ m = 6 by omega), if_neg (show ¬ m = 7 by omega),
        if_neg (show ¬ m = 8 by omega), if_neg (show ¬ m = 9 by omega),
        if_neg (show ¬ m = 10 by omega), if_neg (show ¬ m = 11 by omega),
        if_neg (show ¬ m = 12 by omega), if_neg (show ¬ m = 13 by omega),
        if_neg (show ¬ m = 14 by omega), if_neg (show ¬ m = 15 by omega)]
    rw [hstar]
    decide

theorem digitChar_toNat (m : Nat) (h : m < 10) : (Nat.digitChar m).toNat = 48 + m := by
  interval_cases m <;> decide

theorem toDigitsCore_accumulate :
    ∀ (fuel n : Nat) (ds : List Char),
      Nat.toDigitsCore 10 fuel n ds = Nat.toDigitsCore 10 fuel n [] ++ ds := by
  intro fuel
  induction fuel with
  | zero => intro n ds; rfl
  | succ fuel ih =>
      intro n ds
      by_cases h : n / 10 = 0
      · simp [Nat.toDigitsCore, h]
      · simp only [Nat.toDigitsCore, if_neg h]
        rw [ih (n / 10) (Nat.digitChar (n % 10) :: ds),
          ih (n / 10) [Nat.digitChar (n % 10)], List.append_assoc]
        rfl

theorem toDigitsCore_dash_free :
    ∀ (fuel n : Nat) (ds : List Char), '-' ∈ Nat.toDigitsCore 10 fuel n ds → '-' ∈ ds := by
  intro fuel
  induction fuel with
  | zero => intro n ds h; exact h
  | succ fuel ih =>
      intro n ds h
      by_cases h0 : n / 10 = 0
      · simp only [Nat.toDigitsCore, if_pos h0] at h
        rcases List.mem_cons.mp h with h1 | h1
        · exact absurd h1.symm (digitChar_ne_dash _)
        · exact h1
      · simp only [Nat.toDigitsCore, if_neg h0] at h
        have := ih (n / 10) (Nat.digitChar (n % 10) :: ds) h
        rcases List.mem_cons.mp this with h' | h'
        · exact absurd h'.symm (digitChar_ne_dash _)
        · exact h'

def digitsVal (l : List Char) : Nat :=
  l.foldl (fun a c => a * 10 + (c.toNat - 48)) 0

theorem digitsVal_toDigitsCore :
    ∀ (fuel n : Nat), n < fuel → digitsVal (Nat.toDigitsCore 10 fuel n []) = n := by
  intro fuel
  induction fuel with
  | zero => intro n h; omega
  | succ fuel ih =>
      intro n h
      by_cases h0 : n / 10 = 0
      · have hlt : n < 10 := by omega
        simp only [Nat.toDigitsCore, if_pos h0, digitsVal, List.foldl_cons, List.foldl_nil]
        rw [digitChar_toNat (n % 10) (Nat.mod_lt n (by omega))]
        omega
      · have hge : 10 ≤ n := by omega
        have hrec : n / 10 < fuel := by omega
        simp only [Nat.toDigitsCore, if_neg h0]
        rw [toDigitsCore_accumulate fuel (n / 10) [Nat.digitChar (n % 10)]]
        unfold digitsVal
        rw [List.foldl_append]
        have hv := ih (n / 10) hrec
        unfold digitsVal at hv
        rw [hv, List.foldl_cons, List.foldl_nil,
          digitChar_toNat (n % 10) (Nat.mod_lt n (by omega))]
        omega

theorem repr_dash_free (n : Nat) : '-' ∉ (Nat.repr n).data := by
  intro h
  have hdata : (Nat.repr n).data = Nat.toDigitsCore 10 (n + 1) n [] := rfl
  rw [hdata] at h
  simpa using toDigitsCore_dash_free (n + 1) n [] h

theorem repr_injective (n1 n2 : Nat) (h : Nat.repr n1 = Nat.repr n2) : n1 = n2 := by
  have hdata : Nat.toDigitsCore 10 (n1 + 1) n1 [] = Nat.toDigitsCore 10 (n2 + 1) n2 [] :=
    congrArg String.data h
  have hv1 := digitsVal_toDigitsCore (n1 + 1) n1 (by omega)
  have hv2 := digitsVal_toDigitsCore (n2 + 1) n2 (by omega)
  rw [← hv1, ← hv2, hdata]

theorem append_dash_inj :
    ∀ (a b c d : List Char), '-' ∉ a → '-' ∉ b →
      a ++ '-' :: c = b ++ '-' :: d → a = b ∧ c = d := by
  intro a
  induction a with
  | nil =>
      intro b c d _ hb h
      cases b with
      | nil => simpa using h
      | cons x b' =>
          simp only [List.nil_append, List.cons_append, List.cons.injEq] at h
          exact absurd (h.1.symm ▸ List.mem_cons_self x b') (by simpa [← h.1] using hb)
  | cons x a' ih =>
      intro b c d ha hb h
      cases b with
      | nil =>
          simp only [List.cons_append, List.nil_append, List.cons.injEq] at h
          exact absurd (h.1 ▸ List.mem_cons_self x a') (by simpa [h.1] using ha)
      | cons y b' =>
          simp only [List.cons_append, List.cons.injEq] at h
          obtain ⟨hxy, hrest⟩ := h
          have ha' : '-' ∉ a' := fun hm => ha (List.mem_cons_of_mem x hm)
          have hb' : '-' ∉ b' := fun hm => hb (List.mem_cons_of_mem y hm)
          obtain ⟨h1, h2⟩ := ih b' c d ha' hb' hrest
          exact ⟨by rw [hxy, h1], h2⟩

/-- Distinct generation inputs (a different millisecond, or a different
random suffix) always produce distinct analysis ids: the decimal millisecond
component is dash-free, so the first dash splits the id unambiguously. -/
theorem mkAnalysisId_injective (n1 n2 : Nat) (r1 r2 : String)
    (h : mkAnalysisId n1 r1 = mkAnalysisId n2 r2) : n1 = n2 ∧ r1 = r2 := by
  have hdata : (Nat.repr n1).data ++ '-' :: r1.data = (Nat.repr n2).data ++ '-' :: r2.data := by
    have := congrArg String.data h
    simpa [mkAnalysisId, String.data_append] using this
  obtain ⟨ha, hb⟩ := append_dash_inj _ _ _ _ (repr_dash_free n1) (repr_dash_free n2) hdata
  refine ⟨repr_injective n1 n2 ?_, ?_⟩
  · cases hr1 : Nat.repr n1
    cases hr2 : Nat.repr n2
    simp only [hr1, hr2] at ha
    simp [ha]
  · cases hs1 : r1
    cases hs2 : r2
    simp only [hs1, hs2] at hb
    simp [hb]

theorem mkAnalysisId_has_dash (n : Nat) (r : String) : '-' ∈ (mkAnalysisId n r).data := by
  simp [mkAnalysisId, String.data_append]

theorem recKey_ne_indexKey (n : Nat) (r : String) :
    "analysis_" ++ mkAnalysisId n r ≠ "analysis_keys" := by
  intro h
  have hdata := congrArg String.data h
  simp only [String.data_append] at hdata
  have : (mkAnalysisId n r).data = "keys".data := List.append_cancel_left hdata
  have hd := mkAnalysisId_has_dash n r
  rw [this] at hd
  simpa using hd

/-! ### Sample ledgers for the concrete instances -/

/-- The status (or any other field) of the record stored under
`analysis_${analysisId}`, when those bytes parse. -/
def storedField (st : Ledger) (analysisId : String) (f : String) : Option Json :=
  match st ("analysis_" ++ analysisId) with
  | .wf j => j.get f
  | _ => none

/-- One Processing record owned by `0xaaa`. -/
def ledgerC1 : Ledger :=
  setData emptyLedger "analysis_r1"
    (.wf (encodeRecord ⟨"r1", "img", "", "", 100, "0xaaa", "processing"⟩))

/-- One Completed record owned by `0xaaa`, with derived artifacts. -/
def ledgerC2 : Ledger :=
  setData emptyLedger "analysis_r2"
    (.wf (encodeRecord ⟨"r2", "img", "dm", "ms", 100, "0xaaa", "completed"⟩))

/-- An index that already contains the id `a`. -/
def ledgerC3 : Ledger :=
  setData emptyLedger "analysis_keys" (.wf (.jarr [.jstr "a"]))

/-- One Processing record owned by `0xaaa`. -/
def ledgerC4 : Ledger :=
  setData emptyLedger "analysis_r4"
    (.wf (encodeRecord ⟨"r4", "img", "", "", 100, "0xaaa", "processing"⟩))

/-! ### C1 — authorization of `advance` -/

/-- C1, counterexample: `0xbbb` is not the owner of the Processing record
`r1`, yet `processWithFHE` invoked as `0xbbb` succeeds (it is never
`Unauthorized`) and flips the stored status from `processing` to
`completed`, so the status does not stay unchanged. -/
theorem claim1_counterexample :
    isOwner "0xbbb" "0xaaa" = false ∧
    (processWithFHE "0xbbb" ledgerC1 "r1" true).2 = PResult.success ∧
    storedField ledgerC1 "r1" "status" = some (.jstr "processing") ∧
    storedField (processWithFHE "0xbbb" ledgerC1 "r1" true).1 "r1" "status" =
      some (.jstr "completed") :=
  ⟨rfl, rfl, rfl, rfl⟩

/-- C1, amended: `processWithFHE` performs no authorization check at all —
its result is independent of the caller, and on any record whose bytes
parse it succeeds and stores the completed update, whoever calls it.
Ownership is enforced only by the UI: the "Process with FHE" control is
rendered exactly when `isOwner(owner)` holds and the status is
`processing`. -/
theorem claim1_no_auth_check :
    (∀ c1 c2 : String, ∀ st : Ledger, ∀ analysisId : String, ∀ writeOk : Bool,
        processWithFHE c1 st analysisId writeOk = processWithFHE c2 st analysisId writeOk) ∧
    (∀ caller : String, ∀ st : Ledger, ∀ analysisId : String, ∀ j : Json,
        getData st ("analysis_" ++ analysisId) = .wf j →
        processWithFHE caller st analysisId true =
          (setData st ("analysis_" ++ analysisId) (.wf (completedUpdate j)), .success)) ∧
    (∀ account : String, ∀ e : AnalysisEntry, showProcessButton account e = true →
        (∃ o, e.owner = some (.jstr o) ∧ isOwner account o = true) ∧
        e.status = .jstr "processing") := by
  refine ⟨fun c1 c2 st analysisId writeOk => rfl, ?_, ?_⟩
  · intro caller st analysisId j h
    simp [processWithFHE, h]
  · intro account e h
    unfold showProcessButton at h
    rw [Bool.and_eq_true] at h
    obtain ⟨h1, h2⟩ := h
    constructor
    · cases ho : e.owner with
      | none => rw [ho] at h1; exact absurd h1 (by simp)
      | some v =>
          rw [ho] at h1
          cases v <;> simp at h1
          case jstr o => exact ⟨o, rfl, h1⟩
    · cases hs : e.status <;> rw [hs] at h2 <;> simp at h2
      case jstr s => rw [h2]

/-- C1, witness: the amended theorem at the sample ledger. -/
theorem claim1_witness :
    processWithFHE "0xbbb" ledgerC1 "r1" true =
      (setData ledgerC1 "analysis_r1"
        (.wf (completedUpdate
          (encodeRecord ⟨"r1", "img", "", "", 100, "0xaaa", "processing"⟩))),
       PResult.success) :=
  claim1_no_auth_check.2.1 "0xbbb" ledgerC1 "r1"
    (encodeRecord ⟨"r1", "img", "", "", 100, "0xaaa", "processing"⟩) rfl

/-! ### C2 — terminal guard of `advance` -/

/-- C2, counterexample: `r2` is already Completed, yet `processWithFHE`
succeeds instead of failing (there is no AlreadyTerminal outcome), modifies
the stored record (its density map is overwritten), and a second advance in
sequence succeeds again. -/
theorem claim2_counterexample :
    (processWithFHE "0xaaa" ledgerC2 "r2" true).2 = PResult.success ∧
    (processWithFHE "0xaaa" (processWithFHE "0xaaa" ledgerC2 "r2" true).1 "r2" true).2 =
      PResult.success ∧
    storedField ledgerC2 "r2" "densityMap" = some (.jstr "dm") ∧
    storedField (processWithFHE "0xaaa" ledgerC2 "r2" true).1 "r2" "densityMap" =
      some (.jstr "FHE-ENCRYPTED-DENSITY-MAP") :=
  ⟨rfl, rfl, rfl, rfl⟩

/-- C2, amended: `processWithFHE` never checks the current status. On any
record whose bytes parse — Processing, Completed or Failed alike — it
succeeds, overwrites the stored status to `completed`, and a second advance
in sequence succeeds just as the first; only the UI hides the advance control
for non-`processing` records. -/
theorem claim2_no_terminal_guard (caller : String) (st : Ledger) (analysisId : String)
    (j : Json) (h : getData st ("analysis_" ++ analysisId) = .wf j) :
    (processWithFHE caller st analysisId true).2 = PResult.success ∧
    storedField (processWithFHE caller st analysisId true).1 analysisId "status" =
      some (.jstr "completed") ∧
    (processWithFHE caller (processWithFHE caller st analysisId true).1 analysisId true).2 =
      PResult.success := by
  have hfirst : processWithFHE caller st analysisId true =
      (setData st ("analysis_" ++ analysisId) (.wf (completedUpdate j)), .success) := by
    simp [processWithFHE, h]
  refine ⟨by rw [hfirst], ?_, ?_⟩
  · rw [hfirst]
    simp [storedField, setData, completedUpdate_get]
  · rw [hfirst]
    simp [processWithFHE, getData, setData]

/-- C2, witness: the amended theorem at the Completed sample record. -/
theorem claim2_witness :
    (processWithFHE "0xaaa" ledgerC2 "r2" true).2 = PResult.success ∧
    storedField (processWithFHE "0xaaa" ledgerC2 "r2" true).1 "r2" "status" =
      some (.jstr "completed") ∧
    (processWithFHE "0xaaa" (processWithFHE "0xaaa" ledgerC2 "r2" true).1 "r2" true).2 =
      PResult.success :=
  claim2_no_terminal_guard "0xaaa" ledgerC2 "r2"
    (encodeRecord ⟨"r2", "img", "dm", "ms", 100, "0xaaa", "completed"⟩) rfl

/-! ### C3 — idempotence of `registerKey` -/

/-- C3, counterexample: the index already holds `a`; registering `a` again
is not a no-op — the id is pushed a second time and now appears twice. -/
theorem claim3_counterexample :
    ledgerC3 "analysis_keys" = .wf (.jarr [.jstr "a"]) ∧
    (registerKey ledgerC3 "a") "analysis_keys" = .wf (.jarr [.jstr "a", .jstr "a"]) :=
  ⟨rfl, rfl⟩

/-- C3, amended: `registerKey` appends unconditionally — there is no
dedup before append. Whenever the fetched index parses to a pushable list
`ks`, the written index is `ks ++ [id]`, whether or not `id` is already in
`ks`; registering the same id twice stores it twice. -/
theorem claim3_register_appends (st : Ledger) (analysisId : String) (ks : List Json)
    (h : pushableKeys (getData st "analysis_keys") = some ks) :
    (registerKey st analysisId) "analysis_keys" = .wf (.jarr (ks ++ [.jstr analysisId])) := by
  simp [registerKey, registerKeyBytes, h, setData]

/-- C3, witness: the amended theorem at the sample index. -/
theorem claim3_witness :
    (registerKey ledgerC3 "a") "analysis_keys" =
      .wf (.jarr ([.jstr "a"] ++ [.jstr "a"])) :=
  claim3_register_appends ledgerC3 "a" [.jstr "a"] rfl

/-! ### C4 — backend failure semantics of `advance` -/

/-- C4, counterexample: the update transaction for the Processing record
`r4` fails, and the stored record is left untouched — its status is still
`processing`, not `failed`. -/
theorem claim4_counterexample :
    processWithFHE "0xaaa" ledgerC4 "r4" false =
      (ledgerC4, PResult.failure "transaction rejected") ∧
    storedField ledgerC4 "r4" "status" = some (.jstr "processing") ∧
    some (Json.jstr "processing") ≠ some (Json.jstr "failed") :=
  ⟨rfl, rfl, by simp⟩

/-- C4, amended: on any failure `processWithFHE` leaves the ledger exactly
as it was (the record stays Processing; nothing ever writes a `failed`
status), and it does not report success; on success it stores the completed
update, whose artifacts are the placeholder density map and structure
strings. -/
theorem claim4_failure_leaves_record :
    (∀ caller : String, ∀ st : Ledger, ∀ analysisId : String,
        (processWithFHE caller st analysisId false).1 = st) ∧
    (∀ caller : String, ∀ st : Ledger, ∀ analysisId : String,
        (processWithFHE caller st analysisId false).2 ≠ PResult.success) ∧
    (∀ caller : String, ∀ st : Ledger, ∀ analysisId : String, ∀ j : Json,
        getData st ("analysis_" ++ analysisId) = .wf j →
        processWithFHE caller st analysisId true =
          (setData st ("analysis_" ++ analysisId) (.wf (completedUpdate j)), .success) ∧
        (completedUpdate j).get "status" = some (.jstr "completed") ∧
        (completedUpdate j).get "densityMap" = some (.jstr "FHE-ENCRYPTED-DENSITY-MAP") ∧
        (completedUpdate j).get "structure" = some (.jstr "FHE-ENCRYPTED-STRUCTURE")) := by
  refine ⟨?_, ?_, ?_⟩
  · intro caller st analysisId
    cases hb : getData st ("analysis_" ++ analysisId) <;> simp [processWithFHE, hb]
  · intro caller st analysisId
    cases hb : getData st ("analysis_" ++ analysisId) <;> simp [processWithFHE, hb]
  · intro caller st analysisId j h
    refine ⟨by simp [processWithFHE, h], ?_, ?_, ?_⟩ <;> simp [completedUpdate_get]

/-- C4, witness: the amended theorem at the sample ledger. -/
theorem claim4_witness :
    (processWithFHE "0xaaa" ledgerC4 "r4" false).1 = ledgerC4 ∧
    (completedUpdate (encodeRecord ⟨"r4", "img", "", "", 100, "0xaaa", "processing"⟩)).get
        "status" = some (.jstr "completed") :=
  ⟨claim4_failure_leaves_record.1 "0xaaa" ledgerC4 "r4",
   (claim4_failure_leaves_record.2.2 "0xaaa" ledgerC4 "r4"
      (encodeRecord ⟨"r4", "img", "", "", 100, "0xaaa", "processing"⟩) rfl).2.1⟩

/-! ### C5 — decode leniency -/

/-- C5, counterexample: bytes whose JSON object has a `status` field (the
empty string) but no `id`, `owner`, `createdAt` or `payload` field decode
successfully — no decode error for the missing required fields — and the
present-but-falsy status is still replaced by the `processing` default. -/
theorem claim5_counterexample :
    decodeBytes "k" (.wf (.jobj [("status", .jstr "")])) =
      some ⟨"k", none, none, none, none, none, .jstr "processing"⟩ ∧
    (Json.jobj [("status", .jstr "")]).get "owner" = none ∧
    (Json.jobj [("status", .jstr "")]).get "status" = some (.jstr "") :=
  ⟨rfl, rfl, rfl⟩

/-- C5, amended: decoding fails only when the bytes are empty (skipped as
absent), fail `JSON.parse`, or parse to `null`; a parsed object always
yields an entry, with missing fields left undefined rather than rejected.
The `processing` default applies whenever the status field is absent or
falsy (for example the empty string), not only when it is absent. -/
theorem claim5_decode_lenient :
    (∀ key : String, decodeBytes key Bytes.empty = none) ∧
    (∀ key : String, decodeBytes key Bytes.malformed = none) ∧
    (∀ key : String, ∀ fields : List (String × Json),
        decodeBytes key (.wf (.jobj fields)) = some (decodeEntry key (.jobj fields))) ∧
    (∀ key : String, ∀ j : Json, j.get "status" = none →
        (decodeEntry key j).status = .jstr "processing") ∧
    (∀ key : String, ∀ j : Json, j.get "status" = some (.jstr "") →
        (decodeEntry key j).status = .jstr "processing") ∧
    (∀ key : String, ∀ j : Json, ∀ s : String, j.get "status" = some (.jstr s) → s ≠ "" →
        (decodeEntry key j).status = .jstr s) := by
  refine ⟨fun key => rfl, fun key => rfl, fun key fields => rfl, ?_, ?_, ?_⟩
  · intro key j h
    simp [decodeEntry, statusOrDefault, h]
  · intro key j h
    simp [decodeEntry, statusOrDefault, h, Json.truthy]
  · intro key j s h hs
    simp [decodeEntry, statusOrDefault, h, Json.truthy, hs]

/-- C5, witness: the amended theorem at concrete inputs. -/
theorem claim5_witness :
    decodeBytes "k" (.wf (.jobj [("owner", .jstr "0xaaa")])) =
      some (decodeEntry "k" (.jobj [("owner", .jstr "0xaaa")])) ∧
    (decodeEntry "k" (.jobj [("owner", .jstr "0xaaa")])).status = .jstr "processing" :=
  ⟨claim5_decode_lenient.2.2.1 "k" [("owner", .jstr "0xaaa")],
   claim5_decode_lenient.2.2.2.1 "k" (.jobj [("owner", .jstr "0xaaa")]) rfl⟩

/-! ### C6 — listing order -/

/-- Two records with equal timestamps, indexed in the order `b`, `a`. -/
def ledgerC6 : Ledger :=
  setData (setData (setData emptyLedger
    "analysis_keys" (.wf (.jarr [.jstr "b", .jstr "a"])))
    "analysis_b" (.wf (encodeRecord ⟨"b", "i", "", "", 100, "o", "processing"⟩)))
    "analysis_a" (.wf (encodeRecord ⟨"a", "i", "", "", 100, "o", "processing"⟩))

/-- C6, counterexample: two records share `createdAt = 100` and the index
lists `b` before `a`; `list()` keeps them in index order `[b, a]`, which
violates the claimed deterministic tie-break by id ascending (`a` before
`b`). -/
theorem claim6_counterexample :
    (loadList ledgerC6 ["b", "a"]).map AnalysisEntry.id = ["b", "a"] ∧
    (loadList ledgerC6 ["b", "a"]).map tsOf = [100, 100] ∧
    loadAnalysisData true ledgerC6 = some (loadList ledgerC6 ["b", "a"]) ∧
    ¬ claimedOrder (loadList ledgerC6 ["b", "a"]) := by
  refine ⟨rfl, rfl, ?_, by decide⟩
  simp [loadAnalysisData, ledgerC6, getData, setData, iterKeys, Json.toStr]

/-- C6, amended: `list()` sorts by `createdAt` descending only; the sort is
stable, so records with equal `createdAt` stay in the order the index gave
them — there is no tie-break by id. -/
theorem claim6_order_stable (st : Ledger) (keys : List String) :
    List.Sorted tsLe (loadList st keys) ∧
    (∀ t : Int, (loadList st keys).filter (tsEq t) = (rawList st keys).filter (tsEq t)) ∧
    (∀ ks : List String, iterKeys (getData st "analysis_keys") = some ks →
        loadAnalysisData true st = some (loadList st ks)) := by
  refine ⟨sorted_sortEntries _, fun t => filter_sortEntries t _, ?_⟩
  intro ks h
  simp [loadAnalysisData, h]

/-- Records with `createdAt` 100, 300, 200, for the specification's listing
example. -/
def ledgerC6w : Ledger :=
  setData (setData (setData (setData emptyLedger
    "analysis_keys" (.wf (.jarr [.jstr "x", .jstr "y", .jstr "z"])))
    "analysis_x" (.wf (encodeRecord ⟨"x", "i", "", "", 100, "o", "processing"⟩)))
    "analysis_y" (.wf (encodeRecord ⟨"y", "i", "", "", 300, "o", "processing"⟩)))
    "analysis_z" (.wf (encodeRecord ⟨"z", "i", "", "", 200, "o", "processing"⟩))

/-- C6, witness: on records created at 100, 300, 200 the listing comes back
sorted 300, 200, 100. -/
theorem claim6_witness :
    loadAnalysisData true ledgerC6w = some (loadList ledgerC6w ["x", "y", "z"]) ∧
    (loadList ledgerC6w ["x", "y", "z"]).map tsOf = [300, 200, 100] ∧
    List.Sorted tsLe (loadList ledgerC6w ["x", "y", "z"]) :=
  ⟨(claim6_order_stable ledgerC6w ["x", "y", "z"]).2.2 ["x", "y", "z"]
      (by simp [ledgerC6w, getData, setData, iterKeys, Json.toStr]),
   rfl,
   (claim6_order_stable ledgerC6w ["x", "y", "z"]).1⟩

/-! ### C7 — codec round-trip -/

/-- C7: decoding the encoding of any valid record yields exactly that
record's data (the decoded entry determines the record uniquely). -/
theorem claim7_roundtrip (r : CrystallographyData) (h : validStatus r.status) :
    decodeBytes r.id (.wf (encodeRecord r)) = some (recordToEntry r) ∧
    (∀ r' : CrystallographyData, recordToEntry r = recordToEntry r' → r = r') := by
  refine ⟨decode_encode r h, ?_⟩
  intro r' hh
  cases r
  cases r'
  simp only [recordToEntry, AnalysisEntry.mk.injEq, Option.some.injEq, Json.jstr.injEq,
    Json.jnum.injEq] at hh
  obtain ⟨h1, h2, h3, h4, h5, h6, h7⟩ := hh
  simp_all

/-- C7, witness: the round-trip at a concrete record. -/
theorem claim7_witness :
    decodeBytes "r7" (.wf (encodeRecord ⟨"r7", "img", "", "", 100, "0xaaa", "processing"⟩)) =
      some (recordToEntry ⟨"r7", "img", "", "", 100, "0xaaa", "processing"⟩) :=
  (claim7_roundtrip ⟨"r7", "img", "", "", 100, "0xaaa", "processing"⟩ (Or.inl rfl)).1

/-! ### C8 — partial-index resilience of `list()` -/

/-- C8: a bad id (absent bytes, unparseable bytes, or a parsed `null`) in
the index contributes nothing: the listing equals the listing without that
id, and every key that decodes still contributes its entry. -/
theorem claim8_partial_resilience (st : Ledger) (keys : List String) (bad : String)
    (h : decodeBytes bad (getData st ("analysis_" ++ bad)) = none) :
    loadList st keys = loadList st (keys.filter (fun k => k ≠ bad)) ∧
    (∀ k e, k ∈ keys → decodeBytes k (getData st ("analysis_" ++ k)) = some e →
        e ∈ loadList st keys) := by
  refine ⟨?_, fun k e hk hd => mem_loadList_of_decode st keys k e hk hd⟩
  unfold loadList
  rw [rawList_filter_bad st keys bad h]

/-- An index listing a good record `a` and an id `gone` with no bytes. -/
def ledgerC8 : Ledger :=
  setData (setData emptyLedger
    "analysis_keys" (.wf (.jarr [.jstr "a", .jstr "gone"])))
    "analysis_a" (.wf (encodeRecord ⟨"a", "i", "", "", 100, "o", "processing"⟩))

/-- C8, witness: with `gone` absent from the ledger, listing `[a, gone]`
equals listing without `gone` and still returns the record `a`. -/
theorem claim8_witness :
    loadList ledgerC8 ["a", "gone"] =
      loadList ledgerC8 (["a", "gone"].filter (fun k => k ≠ "gone")) ∧
    (loadList ledgerC8 ["a", "gone"]).map AnalysisEntry.id = ["a"] :=
  ⟨(claim8_partial_resilience ledgerC8 ["a", "gone"] "gone" rfl).1, rfl⟩

/-! ### C9 — create: record contents and write order -/

/-- C9: `uploadXrayImage` builds the new record with `status = processing`,
empty derived artifacts, `createdAt = now()` in seconds and the caller as
owner; it stores the encoded record under `analysis_${id}`; the first write
performed is always the record write, the index write comes second; a crash
(transaction failure) after the record write leaves the index untouched;
and distinct generation inputs always yield distinct ids. -/
theorem claim9_create (st : Ledger) (account encryptedImage : String) (nowMs : Nat)
    (rand : String) :
    (∀ ok2, (uploadXrayImage st account encryptedImage nowMs rand true ok2).1
        ("analysis_" ++ mkAnalysisId nowMs rand) =
      .wf (encodeRecord (newRecord account encryptedImage nowMs rand))) ∧
    (newRecord account encryptedImage nowMs rand).status = "processing" ∧
    (newRecord account encryptedImage nowMs rand).densityMap = "" ∧
    (newRecord account encryptedImage nowMs rand).molecularStructure = "" ∧
    (newRecord account encryptedImage nowMs rand).timestamp = Int.ofNat (nowMs / 1000) ∧
    (newRecord account encryptedImage nowMs rand).owner = account ∧
    decodeBytes (mkAnalysisId nowMs rand)
        (.wf (encodeRecord (newRecord account encryptedImage nowMs rand))) =
      some (recordToEntry (newRecord account encryptedImage nowMs rand)) ∧
    (∀ ok2, ((uploadXrayImage st account encryptedImage nowMs rand true ok2).2).head? =
      some ⟨"analysis_" ++ mkAnalysisId nowMs rand,
            .wf (encodeRecord (newRecord account encryptedImage nowMs rand))⟩) ∧
    (∀ b, registerKeyBytes (setData st ("analysis_" ++ mkAnalysisId nowMs rand)
          (.wf (encodeRecord (newRecord account encryptedImage nowMs rand))))
          (mkAnalysisId nowMs rand) = some b →
      (uploadXrayImage st account encryptedImage nowMs rand true true).2 =
        [⟨"analysis_" ++ mkAnalysisId nowMs rand,
          .wf (encodeRecord (newRecord account encryptedImage nowMs rand))⟩,
         ⟨"analysis_keys", b⟩]) ∧
    ((uploadXrayImage st account encryptedImage nowMs rand true false).1 "analysis_keys" =
      st "analysis_keys") ∧
    (∀ n1 n2 : Nat, ∀ r1 r2 : String, mkAnalysisId n1 r1 = mkAnalysisId n2 r2 →
      n1 = n2 ∧ r1 = r2) := by
  refine ⟨?_, rfl, rfl, rfl, rfl, rfl,
    decode_encode (newRecord account encryptedImage nowMs rand) (Or.inl rfl), ?_, ?_, ?_,
    fun n1 n2 r1 r2 hh => mkAnalysisId_injective n1 n2 r1 r2 hh⟩
  · intro ok2
    cases hreg : registerKeyBytes (setData st ("analysis_" ++ mkAnalysisId nowMs rand)
        (.wf (encodeRecord (newRecord account encryptedImage nowMs rand))))
        (mkAnalysisId nowMs rand) with
    | none => simp [uploadXrayImage, hreg, setData]
    | some b =>
        cases ok2 with
        | false => simp [uploadXrayImage, hreg, setData]
        | true => simp [uploadXrayImage, hreg, setData, recKey_ne_indexKey nowMs rand]
  · intro ok2
    cases hreg : registerKeyBytes (setData st ("analysis_" ++ mkAnalysisId nowMs rand)
        (.wf (encodeRecord (newRecord account encryptedImage nowMs rand))))
        (mkAnalysisId nowMs rand) with
    | none => simp [uploadXrayImage, hreg]
    | some b => cases ok2 <;> simp [uploadXrayImage, hreg]
  · intro b hreg
    simp [uploadXrayImage, hreg]
  · cases hreg : registerKeyBytes (setData st ("analysis_" ++ mkAnalysisId nowMs rand)
        (.wf (encodeRecord (newRecord account encryptedImage nowMs rand))))
        (mkAnalysisId nowMs rand) with
    | none => simp [uploadXrayImage, hreg, setData, (recKey_ne_indexKey nowMs rand).symm]
    | some b => simp [uploadXrayImage, hreg, setData, (recKey_ne_indexKey nowMs rand).symm]

/-- C9, witness: a concrete upload performs the record write first and the
index write second, and the id components are recovered uniquely. -/
theorem claim9_witness :
    (uploadXrayImage emptyLedger "0xa" "img" 1700 "rnd" true true).2 =
      [⟨"analysis_" ++ mkAnalysisId 1700 "rnd",
        .wf (encodeRecord (newRecord "0xa" "img" 1700 "rnd"))⟩,
       ⟨"analysis_keys", .wf (.jarr [.jstr (mkAnalysisId 1700 "rnd")])⟩] ∧
    (1700 = 1700 ∧ "rnd" = "rnd") :=
  ⟨(claim9_create emptyLedger "0xa" "img" 1700 "rnd").2.2.2.2.2.2.2.2.1
      (.wf (.jarr [.jstr (mkAnalysisId 1700 "rnd")])) rfl,
   (claim9_create emptyLedger "0xa" "img" 1700 "rnd").2.2.2.2.2.2.2.2.2.2
      1700 1700 "rnd" "rnd" rfl⟩

/-! ### C10 — frame condition of a successful `advance` -/

/-- C10: a successful `processWithFHE` overwrites only `status`,
`densityMap` and `structure` in the stored record — `image`, `timestamp`,
`owner` (and every other property) keep their values, the entry id is the
unchanged ledger key, and no other ledger key is written. -/
theorem claim10_frame (caller : String) (st : Ledger) (analysisId : String) (j : Json)
    (h : getData st ("analysis_" ++ analysisId) = .wf j) :
    (processWithFHE caller st analysisId true).1 ("analysis_" ++ analysisId) =
      .wf (completedUpdate j) ∧
    (∀ f, f ≠ "densityMap" → f ≠ "structure" → f ≠ "status" →
        (completedUpdate j).get f = j.get f) ∧
    (completedUpdate j).get "status" = some (.jstr "completed") ∧
    (∀ k, k ≠ "analysis_" ++ analysisId →
        (processWithFHE caller st analysisId true).1 k = st k) := by
  have hfirst : processWithFHE caller st analysisId true =
      (setData st ("analysis_" ++ analysisId) (.wf (completedUpdate j)), .success) := by
    simp [processWithFHE, h]
  refine ⟨?_, ?_, ?_, ?_⟩
  · rw [hfirst]
    simp [setData]
  · intro f h1 h2 h3
    rw [completedUpdate_get, if_neg h3, if_neg h2, if_neg h1]
  · simp [completedUpdate_get]
  · intro k hk
    rw [hfirst]
    simp [setData, hk]

/-- C10, witness: the frame condition at the sample ledger — the record is
overwritten in place and the `owner` property survives the update. -/
theorem claim10_witness :
    (processWithFHE "0xaaa" ledgerC1 "r1" true).1 "analysis_r1" =
      .wf (completedUpdate (encodeRecord ⟨"r1", "img", "", "", 100, "0xaaa", "processing"⟩)) ∧
    (completedUpdate (encodeRecord ⟨"r1", "img", "", "", 100, "0xaaa", "processing"⟩)).get
        "owner" =
      (encodeRecord ⟨"r1", "img", "", "", 100, "0xaaa", "processing"⟩).get "owner" :=
  ⟨(claim10_frame "0xaaa" ledgerC1 "r1"
      (encodeRecord ⟨"r1", "img", "", "", 100, "0xaaa", "processing"⟩) rfl).1,
   (claim10_frame "0xaaa" ledgerC1 "r1"
      (encodeRecord ⟨"r1", "img", "", "", 100, "0xaaa", "processing"⟩) rfl).2.1
      "owner" (by decide) (by decide) (by decide)⟩
